import Mathlib

/-!
Shallow embedding of the hp-plus hazard-pointer reclamation engine
(`src/thread.rs` and `src/domain.rs`) as a sequential state machine over one
tracked thread.

Modelling conventions:
* `usize` values are `Nat` with explicit wrapping arithmetic modulo `2 ^ 64`
  (`wadd`, `wsub`).
* Raw addresses are `Nat`; the null pointer is `0`.
* A retired entry is its address together with a type-erased deleter; invoking
  the deleter of an entry is recorded by appending its address to the `freed`
  log of the state.
* The tracked thread's hazard array is `myRecord`; the hazard arrays of every
  other registered thread record are `otherRecords`, and an explicit event can
  rewrite them arbitrarily between the tracked thread's operations, standing in
  for the concurrent actions of other threads.
* Rust `Vec`s used as stacks (`available_indices`) are lists whose head is the
  top of the stack (the most recently pushed element); `VecDeque`s
  (`epoched_hps`) are lists whose head is the front of the deque.
* In the sequential model the `membarrier` fences are no-ops, the epoch CAS in
  `EpochBarrier::barrier` always succeeds, and `EpochBarrier::read` returns the
  current epoch.
-/

/-- Bit width modulus of `usize` values: `2 ^ 64`. -/
def W : Nat := 2 ^ 64

/-- Wrapping addition on `usize` (`usize::wrapping_add`). -/
def wadd (a b : Nat) : Nat := (a + b) % W

/-- Wrapping subtraction on `usize` (`usize::wrapping_sub`). -/
def wsub (a b : Nat) : Nat := (a + (W - b % W)) % W

/-- `EpochBarrier::check` from `src/domain.rs`: `new.wrapping_sub(old) >= 2`. -/
def EpochBarrier.check (old new : Nat) : Bool := decide (2 ≤ wsub new old)

/-- A retired entry (`Retired` in `src/retire.rs`): an untyped raw address
paired with a type-erased deleter.  The deleter is determined by the entry, so
an invocation is recorded by the entry's address in the `freed` log. -/
structure Retired where
  ptr : Nat
deriving DecidableEq, Repr

/-- Modelled from the spec: an unlinked batch (`Unlinked` in `src/retire.rs`)
is "an owned collection of nodes removed from the shared structure plus the set
of hazard pointers that protected the frontier pointers"; its pending
invalidation step turns the nodes' addresses into retired entries and releases
the frontier hazards into an epoch-stamped bundle.  `nodes` holds the
addresses of the unlinked nodes and `hps` the slot indices of the frontier
hazard pointers. -/
structure Unlinked where
  nodes : List Nat
  hps : List Nat
deriving DecidableEq, Repr

/-- The entire reachable state of one tracked `Thread` together with its
`Domain` (`src/thread.rs`, `src/domain.rs`). -/
structure Sys where
  /-- Hazard array of the tracked thread's record (slot values, `0` = null). -/
  myRecord : List Nat
  /-- Hazard arrays of every other registered thread record. -/
  otherRecords : List (List Nat)
  /-- `Thread::available_indices`, a stack whose head is the top. -/
  availableIndices : List Nat
  /-- `Thread::epoched_hps`, a deque whose head is the front; each bundle is a
  captured epoch together with the slot indices of its hazard pointers. -/
  epochedHps : List (Nat × List Nat)
  /-- `Thread::unlinkeds`: unlinked batches pending invalidation. -/
  unlinkeds : List Unlinked
  /-- `Thread::retired`: the thread-local retired buffer. -/
  retiredLocal : List Retired
  /-- `Thread::count`: the operation counter. -/
  count : Nat
  /-- Address of the currently published hazard array of the tracked record. -/
  arrayAddr : Nat
  /-- Next fresh address handed out by the allocator model. -/
  nextAddr : Nat
  /-- Modelled from the spec: `Domain::retireds` (`RetiredList` in
  `src/retire.rs`) is "a shared concurrent container supporting `push(batch)`
  and `pop_all()` returning every currently-present entry"; it is a list,
  `push` appends a batch and `pop_all` takes everything. -/
  domainRetireds : List Retired
  /-- `Domain::num_garbages`. -/
  numGarbages : Nat
  /-- `Domain::barrier`: the epoch counter. -/
  epoch : Nat
  /-- Log of deleter invocations (the address freed, in invocation order). -/
  freed : List Nat
  /-- Modelled from the spec: the `available` flag of the tracked thread's
  record; `ThreadRecords::release` "sets `available` to true". -/
  recordAvailable : Bool
deriving DecidableEq, Repr

/-- `Domain::collect_guarded_ptrs` (`src/domain.rs`): walk every thread
record and union every slot of every hazard array into a set of raw
addresses.  Modelled from the spec: the per-record slot iteration
(`ThreadRecord::iter` in `src/hazard.rs`) "reads every slot of every hazard
array"; membership in the resulting set is list membership. -/
def collect_guarded_ptrs (s : Sys) : List Nat :=
  (s.myRecord :: s.otherRecords).flatten

/-- `EpochBarrier::barrier` (`src/domain.rs`) in the sequential model: the
heavy fence is a no-op and the compare-exchange always succeeds, so the epoch
advances by one (wrapping). -/
def barrier (s : Sys) : Sys := { s with epoch := wadd s.epoch 1 }

/-- `EpochBarrier::read` (`src/domain.rs`) in the sequential model: the two
loads around the light fence always agree, returning the current epoch. -/
def epochRead (s : Sys) : Nat := s.epoch

/-- Modelled from the spec: dropping a `HazardPointer` (`src/hazard.rs`)
zeroes its slot and returns its index to the owning thread's free list. -/
def dropHp (idx : Nat) (s : Sys) : Sys :=
  { s with myRecord := s.myRecord.set idx 0,
           availableIndices := idx :: s.availableIndices }

/-- Drop a collection of hazard pointers in order (Rust drops a `Vec`'s
elements front to back). -/
def dropHps (hps : List Nat) (s : Sys) : Sys :=
  hps.foldl (fun acc i => dropHp i acc) s

/-- `self.epoched_hps.clear()`: dropping the deque's bundles front to back
drops every bundled hazard pointer, then the deque is empty. -/
def clearEpochedHps (s : Sys) : Sys :=
  { s.epochedHps.foldl (fun acc b => dropHps b.2 acc) s with epochedHps := [] }

/-- `Thread::flush_retireds` (`src/thread.rs`): add the local buffer's length
to `num_garbages`, then push the whole buffer into the domain retired list. -/
def flush_retireds (s : Sys) : Sys :=
  { s with numGarbages := wadd s.numGarbages s.retiredLocal.length,
           domainRetireds := s.domainRetireds ++ s.retiredLocal,
           retiredLocal := [] }

/-- The `filter_map` pass of `Thread::do_reclamation`: walk the popped entries
left to right; an entry whose address is guarded is kept (`not_freed`, first
component), otherwise its deleter is invoked (address appended to the freed
log, second component). -/
def reclaimPass (g : List Nat) : List Retired → List Retired × List Nat
  | [] => ([], [])
  | r :: rest =>
    let tail := reclaimPass g rest
    if g.contains r.ptr then (r :: tail.1, tail.2) else (tail.1, r.ptr :: tail.2)

/-- The state of `Thread::do_reclamation` after popping the domain retired
list, running the epoch barrier, and clearing the epoched-hazard deque
(dropping its bundled hazard pointers). -/
def reclaimPrep (s : Sys) : Sys :=
  clearEpochedHps (barrier { s with domainRetireds := [] })

/-- The guarded set that `Thread::do_reclamation` computes, at the point where
it computes it (after the barrier and the epoched-hazard clear). -/
def reclaimGuarded (s : Sys) : List Nat :=
  collect_guarded_ptrs (reclaimPrep s)

/-- `Thread::do_reclamation` (`src/thread.rs`): pop every entry from the
domain retired list; if empty return; otherwise run the epoch barrier, clear
the epoched-hazard deque, collect the guarded set, keep the guarded entries
(pushing them back into the domain retired list), invoke the deleter of each
unguarded entry, and subtract the freed count from `num_garbages`. -/
def do_reclamation (s : Sys) : Sys :=
  if s.domainRetireds.isEmpty then s
  else
    let retireds := s.domainRetireds
    let s2 := reclaimPrep s
    let g := collect_guarded_ptrs s2
    let pr := reclaimPass g retireds
    { s2 with freed := s2.freed ++ pr.2,
              numGarbages := wsub s2.numGarbages (retireds.length - pr.1.length),
              domainRetireds := pr.1 }

/-- `Thread::retire` (`src/thread.rs`): push the entry onto the local retired
buffer, bump the operation counter (wrapping), flush at multiples of
`COUNTS_BETWEEN_FLUSH` (64) and reclaim at multiples of
`COUNTS_BETWEEN_COLLECT` (128). -/
def retire (p : Nat) (s : Sys) : Sys :=
  let s1 := { s with retiredLocal := s.retiredLocal ++ [Retired.mk p] }
  let c := wadd s.count 1
  let s2 := { s1 with count := c }
  let s3 := if c % 64 = 0 then flush_retireds s2 else s2
  if c % 128 = 0 then do_reclamation s3 else s3

/-- `Thread::grow_array` (`src/thread.rs`): build a new array of double the
length holding each existing slot's current value padded with nulls, publish
it (the old array's address is replaced by a fresh one), retire the old
array's address through this same thread's `retire`, and extend the free list
with the new indices (`Vec::extend` pushes `size..new_size` in order, so the
stack top becomes `new_size - 1`). -/
def grow_array (s : Sys) : Sys :=
  let size := s.myRecord.length
  let new_size := size * 2
  let new_array := s.myRecord ++ List.replicate (new_size - size) 0
  let s1 := { s with myRecord := new_array,
                     arrayAddr := s.nextAddr,
                     nextAddr := s.nextAddr + 1 }
  let s2 := retire s.arrayAddr s1
  { s2 with availableIndices :=
      (List.range' size (new_size - size)).reverse ++ s2.availableIndices }

/-- `Thread::acquire` (`src/thread.rs`): pop a free slot index, growing the
array first when the free list is empty.  (When the hazard array is nonempty,
the growth puts fresh indices on the free list, so the second match never
falls through; the final fallback only makes the function total.) -/
def acquire (s : Sys) : Nat × Sys :=
  match s.availableIndices with
  | idx :: rest => (idx, { s with availableIndices := rest })
  | [] =>
    let s1 := grow_array s
    match s1.availableIndices with
    | idx :: rest => (idx, { s1 with availableIndices := rest })
    | [] => (0, s1)

/-- `HazardPointer::protect_raw` (modelled from the spec: writes the pointer
into the claimed slot of the published hazard array). -/
def writeSlot (idx p : Nat) (s : Sys) : Sys :=
  { s with myRecord := s.myRecord.set idx p }

/-- The frontier-protection loop of `Thread::try_unlink`: for each frontier
pointer, create a fresh hazard pointer (claiming a slot index via `acquire`)
and protect the pointer in it.  Returns the created hazard pointers' indices
in creation order. -/
def protectFrontier : List Nat → Sys → List Nat × Sys
  | [], s => ([], s)
  | p :: ps, s =>
    let a := acquire s
    let s1 := writeSlot a.1 p a.2
    let rest := protectFrontier ps s1
    (a.1 :: rest.1, rest.2)

/-- The front-discard loop of `Thread::do_invalidation`: while the front
bundle's captured epoch satisfies `check` against the current epoch, pop and
drop it (dropping its hazard pointers); stop at the first front bundle that
does not.  Returns the remaining deque and the threaded state. -/
def invLoop (e : Nat) : List (Nat × List Nat) → Sys → List (Nat × List Nat) × Sys
  | [], s => ([], s)
  | b :: rest, s =>
    if EpochBarrier.check b.1 e then invLoop e rest (dropHps b.2 s)
    else (b :: rest, s)

/-- `Thread::do_invalidation` (`src/thread.rs`): drain every pending unlinked
batch, invalidating its nodes (their addresses become retired entries) and
collecting its frontier hazards; read the current epoch; discard satisfying
front bundles of the epoched deque; push the new bundle at the back; append
the invalidated entries to the local retired buffer.  The per-batch
invalidation (`Unlinked::do_invalidation` in `src/retire.rs`) is modelled from
the spec: a batch's nodes "become retired entries and its hazard pointers
become part of an epoch-stamped bundle". -/
def do_invalidation (s : Sys) : Sys :=
  let invalidateds := (s.unlinkeds.map (fun u => u.nodes)).flatten
  let hps := (s.unlinkeds.map (fun u => u.hps)).flatten
  let s1 := { s with unlinkeds := [] }
  let e := epochRead s1
  let lp := invLoop e s1.epochedHps s1
  let s3 := { lp.2 with epochedHps := lp.1 ++ [(e, hps)] }
  { s3 with retiredLocal := s3.retiredLocal ++ invalidateds.map Retired.mk }

/-- `Thread::try_unlink` (`src/thread.rs`): protect every frontier pointer
with a fresh hazard pointer, then attempt the client's atomic detach (its
result is the `unlinkRes` argument: `some nodes` on success, `none` on
failure; the spec specifies that a failed unlink has no side effect of its
own).  On success push the unlinked batch, bump the counter and run the
amortised invalidation / flush / reclamation steps; on failure drop the
frontier hazards and return false. -/
def try_unlink (unlinkRes : Option (List Nat)) (frontier : List Nat)
    (s : Sys) : Bool × Sys :=
  let pf := protectFrontier frontier s
  match unlinkRes with
  | some nodes =>
    let s2 := { pf.2 with unlinkeds := pf.2.unlinkeds ++ [Unlinked.mk nodes pf.1] }
    let c := wadd s2.count 1
    let s3 := { s2 with count := c }
    let s4 := if c % 32 = 0 then do_invalidation s3 else s3
    let s5 := if c % 64 = 0 then flush_retireds s4 else s4
    let s6 := if c % 128 = 0 then do_reclamation s5 else s5
    (true, s6)
  | none => (false, dropHps pf.1 pf.2)

/-- `Thread::drop` (`src/thread.rs`): invalidate, flush, barrier, clear the
epoched deque; then the three assertions run (`none` models an assertion
failure); only afterwards is the free list cleared and the thread record
released (modelled from the spec: `ThreadRecords::release` sets the record's
`available` flag). -/
def threadDrop (s : Sys) : Option Sys :=
  let s1 := do_invalidation s
  let s2 := flush_retireds s1
  let s3 := barrier s2
  let s4 := clearEpochedHps s3
  if s4.unlinkeds = [] ∧ s4.retiredLocal = [] ∧ s4.epochedHps = [] then
    some { s4 with availableIndices := [], recordAvailable := true }
  else none

/-- `Domain::drop` (`src/domain.rs`): assert every thread record is available
(`none` models an assertion failure), then drain the retired list and invoke
every deleter; returns the complete log of deleter invocations. -/
def domainDrop (s : Sys) : Option (List Nat) :=
  if s.recordAvailable then some (s.freed ++ s.domainRetireds.map Retired.ptr)
  else none

/-- An action of a sequential execution: the tracked thread retires a pointer
or runs a reclamation, or the other threads' hazard arrays change. -/
inductive Event where
  | retireE (p : Nat)
  | reclaimE
  | setRecords (recs : List (List Nat))
deriving DecidableEq, Repr

/-- One step of a sequential execution. -/
def stepE (s : Sys) : Event → Sys
  | .retireE p => retire p s
  | .reclaimE => do_reclamation s
  | .setRecords recs => { s with otherRecords := recs }

/-- Run a sequence of events. -/
def run (es : List Event) (s : Sys) : Sys := es.foldl stepE s

/-- The pointers handed to `retire` over an event sequence, in order. -/
def retiredInputs (es : List Event) : List Nat :=
  es.filterMap (fun e => match e with | .retireE p => some p | _ => none)

/-- Initial state of a fresh domain with one freshly constructed tracked
thread (modelled from the spec: the initial hazard array size is 8, all slots
null, all indices free). -/
def initSys (recs : List (List Nat)) : Sys :=
  { myRecord := List.replicate 8 0
    otherRecords := recs
    availableIndices := (List.range 8).reverse
    epochedHps := []
    unlinkeds := []
    retiredLocal := []
    count := 0
    arrayAddr := 1
    nextAddr := 2
    domainRetireds := []
    numGarbages := 0
    epoch := 0
    freed := []
    recordAvailable := false }

/-- The complete log of deleter invocations of a sequential execution: run
the events from the initial state, drop the thread, then drop the domain.
(The drops never hit an assertion, which is proved separately; the empty-list
fallbacks are dead.) -/
def finalFreed (es : List Event) (recs : List (List Nat)) : List Nat :=
  match threadDrop (run es (initSys recs)) with
  | some s1 =>
    match domainDrop s1 with
    | some l => l
    | none => []
  | none => []

/-- Refinement reference for `do_reclamation`, phrased from the spec's words:
if the popped retired list was empty return unchanged; otherwise partition the
popped entries by membership of their address in the guarded set, put the
guarded ones back, free the others, and decrement `num_garbages` by exactly
the number of entries freed. -/
def do_reclamationSpec (s : Sys) : Sys :=
  if s.domainRetireds.isEmpty then s
  else
    let s2 := reclaimPrep s
    let g := collect_guarded_ptrs s2
    let kept := s.domainRetireds.filter (fun r => g.contains r.ptr)
    let freedNow := (s.domainRetireds.filter (fun r => !(g.contains r.ptr))).map Retired.ptr
    { s2 with freed := s2.freed ++ freedNow,
              numGarbages := wsub s2.numGarbages freedNow.length,
              domainRetireds := kept }

/-- An all-empty demonstration state. -/
def sys0 : Sys :=
  { myRecord := []
    otherRecords := []
    availableIndices := []
    epochedHps := []
    unlinkeds := []
    retiredLocal := []
    count := 0
    arrayAddr := 1
    nextAddr := 2
    domainRetireds := []
    numGarbages := 0
    epoch := 0
    freed := []
    recordAvailable := false }

/-- Demonstration state: another thread guards address 7 while entries for 7
and 8 sit in the domain retired list. -/
def cs2 : Sys := { sys0 with otherRecords := [[7]],
                             domainRetireds := [Retired.mk 7, Retired.mk 8],
                             numGarbages := 2 }

/-- Demonstration state: the epoched deque holds a front bundle of epoch 4 and
a rear bundle of epoch 0 while the current epoch is 5. -/
def cs4 : Sys := { sys0 with epochedHps := [(4, []), (0, [])], epoch := 5 }

/-- Demonstration state: a one-slot hazard array with an empty free list, so
that creating a hazard pointer grows the array. -/
def cs7 : Sys := { sys0 with myRecord := [0], arrayAddr := 100, nextAddr := 101 }

/-- Demonstration state: slot 0 guards address 9 through an epoched bundle,
the free list is empty, and the operation counter sits at 127, so the retire
inside `grow_array` triggers a reclamation. -/
def cs8 : Sys := { sys0 with myRecord := [9], epochedHps := [(0, [0])],
                             count := 127, arrayAddr := 100, nextAddr := 101 }

/-- Demonstration state: one entry in the domain retired list, counted by
`num_garbages`. -/
def cs10 : Sys := { sys0 with domainRetireds := [Retired.mk 3], numGarbages := 1 }

/-- Demonstration state: a two-slot hazard array with both indices free. -/
def cs7w : Sys := { sys0 with myRecord := [0, 0], availableIndices := [1, 0] }

/-- Demonstration state: slot 0 guards address 9, the free list is empty, and
the counter is 0, so growing does not trigger a reclamation. -/
def cs8w : Sys := { sys0 with myRecord := [9], arrayAddr := 100, nextAddr := 101 }

/-- The intermediate state of `grow_array` right after the doubled array is
built and published (before the old array is retired): the first half copies
each existing slot, the second half is null, and the published address is
fresh. -/
def growPub (s : Sys) : Sys :=
  { s with myRecord := s.myRecord
             ++ List.replicate (s.myRecord.length * 2 - s.myRecord.length) 0,
           arrayAddr := s.nextAddr,
           nextAddr := s.nextAddr + 1 }

/-- The number of occurrences of address `p` across the whole retirement
pipeline: already freed, in the domain retired list, or in the thread-local
retired buffer. -/
def totalCount (p : Nat) (s : Sys) : Nat :=
  s.freed.count p + (s.domainRetireds.map Retired.ptr).count p
    + (s.retiredLocal.map Retired.ptr).count p

/-! ## Helper lemmas -/

theorem W_eq : W = 18446744073709551616 := by norm_num [W]

theorem dropHp_proj {α : Type} (f : Sys → α)
    (hf : ∀ i s, f (dropHp i s) = f s) :
    ∀ hs s, f (dropHps hs s) = f s := by
  intro hs
  induction hs with
  | nil => intro s; rfl
  | cons i t ih => intro s; simpa [dropHps] using (ih (dropHp i s)).trans (hf i s)

theorem dropHps_eq : ∀ (hs : List Nat) (s : Sys),
    dropHps hs s = { s with myRecord := hs.foldl (fun r i => r.set i 0) s.myRecord,
                            availableIndices := hs.reverse ++ s.availableIndices } := by
  intro hs
  induction hs with
  | nil => intro s; rfl
  | cons i t ih =>
    intro s
    show dropHps t (dropHp i s) = _
    rw [ih]
    simp [dropHp]

theorem bundleFold_proj {α : Type} (f : Sys → α)
    (hf : ∀ i s, f (dropHp i s) = f s) :
    ∀ (bs : List (Nat × List Nat)) s,
      f (bs.foldl (fun acc b => dropHps b.2 acc) s) = f s := by
  intro bs
  induction bs with
  | nil => intro s; rfl
  | cons b t ih =>
    intro s
    simpa using (ih (dropHps b.2 s)).trans (dropHp_proj f hf b.2 s)

theorem clearEpochedHps_freed (s : Sys) : (clearEpochedHps s).freed = s.freed :=
  bundleFold_proj Sys.freed (fun _ _ => rfl) s.epochedHps s

theorem clearEpochedHps_domainRetireds (s : Sys) :
    (clearEpochedHps s).domainRetireds = s.domainRetireds :=
  bundleFold_proj Sys.domainRetireds (fun _ _ => rfl) s.epochedHps s

theorem clearEpochedHps_retiredLocal (s : Sys) :
    (clearEpochedHps s).retiredLocal = s.retiredLocal :=
  bundleFold_proj Sys.retiredLocal (fun _ _ => rfl) s.epochedHps s

theorem clearEpochedHps_unlinkeds (s : Sys) :
    (clearEpochedHps s).unlinkeds = s.unlinkeds :=
  bundleFold_proj Sys.unlinkeds (fun _ _ => rfl) s.epochedHps s

theorem clearEpochedHps_count (s : Sys) : (clearEpochedHps s).count = s.count :=
  bundleFold_proj Sys.count (fun _ _ => rfl) s.epochedHps s

theorem clearEpochedHps_numGarbages (s : Sys) :
    (clearEpochedHps s).numGarbages = s.numGarbages :=
  bundleFold_proj Sys.numGarbages (fun _ _ => rfl) s.epochedHps s

theorem clearEpochedHps_epoch (s : Sys) : (clearEpochedHps s).epoch = s.epoch :=
  bundleFold_proj Sys.epoch (fun _ _ => rfl) s.epochedHps s

theorem clearEpochedHps_otherRecords (s : Sys) :
    (clearEpochedHps s).otherRecords = s.otherRecords :=
  bundleFold_proj Sys.otherRecords (fun _ _ => rfl) s.epochedHps s

theorem clearEpochedHps_epochedHps (s : Sys) : (clearEpochedHps s).epochedHps = [] := rfl

theorem reclaimPass_fst (g : List Nat) :
    ∀ l, (reclaimPass g l).1 = l.filter (fun r => g.contains r.ptr) := by
  intro l
  induction l with
  | nil => rfl
  | cons r rest ih =>
    by_cases h : r.ptr ∈ g <;> simp [reclaimPass, List.filter, h, ih]

theorem reclaimPass_snd (g : List Nat) :
    ∀ l, (reclaimPass g l).2
      = (l.filter (fun r => !(g.contains r.ptr))).map Retired.ptr := by
  intro l
  induction l with
  | nil => rfl
  | cons r rest ih =>
    by_cases h : r.ptr ∈ g <;> simp [reclaimPass, List.filter, h, ih]

theorem reclaimPass_count (g : List Nat) (p : Nat) :
    ∀ l, ((reclaimPass g l).1.map Retired.ptr).count p + ((reclaimPass g l).2).count p
      = (l.map Retired.ptr).count p := by
  intro l
  induction l with
  | nil => rfl
  | cons r rest ih =>
    by_cases h : r.ptr ∈ g <;>
      simp [reclaimPass, h, List.count_cons] <;> omega

theorem reclaimPrep_freed (s : Sys) : (reclaimPrep s).freed = s.freed := by
  rw [reclaimPrep, clearEpochedHps_freed]; rfl

theorem reclaimPrep_retiredLocal (s : Sys) :
    (reclaimPrep s).retiredLocal = s.retiredLocal := by
  rw [reclaimPrep, clearEpochedHps_retiredLocal]; rfl

theorem reclaimPrep_unlinkeds (s : Sys) : (reclaimPrep s).unlinkeds = s.unlinkeds := by
  rw [reclaimPrep, clearEpochedHps_unlinkeds]; rfl

theorem reclaimPrep_count (s : Sys) : (reclaimPrep s).count = s.count := by
  rw [reclaimPrep, clearEpochedHps_count]; rfl

theorem reclaimPrep_numGarbages (s : Sys) :
    (reclaimPrep s).numGarbages = s.numGarbages := by
  rw [reclaimPrep, clearEpochedHps_numGarbages]; rfl

theorem reclaimPrep_domainRetireds (s : Sys) :
    (reclaimPrep s).domainRetireds = [] := by
  rw [reclaimPrep, clearEpochedHps_domainRetireds]; rfl

theorem reclaimPrep_epoch (s : Sys) : (reclaimPrep s).epoch = wadd s.epoch 1 := by
  rw [reclaimPrep, clearEpochedHps_epoch]; rfl

/-- C3: `do_reclamation` follows the specified algorithm — it pops every entry
from the domain retired list and returns unchanged if that list was empty;
otherwise it runs the epoch barrier, clears the epoched-hazard deque,
partitions the popped entries by membership of their address in the guarded
set (pushing guarded entries back and invoking the deleter of each unguarded
entry), and decrements `num_garbages` by exactly the number of entries
freed. -/
theorem do_reclamation_matches_spec (s : Sys) :
    do_reclamation s = do_reclamationSpec s := by
  unfold do_reclamation do_reclamationSpec
  by_cases h : s.domainRetireds.isEmpty
  · simp [h]
  · simp only [h, if_false, reclaimPass_fst, reclaimPass_snd]
    have h2 := List.length_eq_length_filter_add
      (l := s.domainRetireds)
      (fun r => (collect_guarded_ptrs (reclaimPrep s)).contains r.ptr)
    have hlen : s.domainRetireds.length
        - (s.domainRetireds.filter
            (fun r => (collect_guarded_ptrs (reclaimPrep s)).contains r.ptr)).length
        = ((s.domainRetireds.filter
            (fun r => !((collect_guarded_ptrs (reclaimPrep s)).contains r.ptr))).map
              Retired.ptr).length := by
      rw [List.length_map]
      omega
    rw [hlen]

/-- C2: `do_reclamation` never invokes the deleter of a retired entry whose
address is in the guarded set returned by `collect_guarded_ptrs` (held in some
hazard slot of some thread record); every such entry is pushed back into the
domain retired list instead of being freed. -/
theorem no_premature_free (s : Sys) (p : Nat) (hg : p ∈ reclaimGuarded s) :
    (do_reclamation s).freed.count p = s.freed.count p ∧
    ∀ r ∈ s.domainRetireds, r.ptr = p → r ∈ (do_reclamation s).domainRetireds := by
  unfold do_reclamation
  by_cases h : s.domainRetireds.isEmpty
  · have he : s.domainRetireds = [] := List.isEmpty_iff.mp h
    simp [h, he]
  · simp only [h, Bool.false_eq_true, if_false]
    constructor
    · show ((reclaimPrep s).freed ++ _).count p = _
      rw [List.count_append, reclaimPrep_freed, reclaimPass_snd]
      have hz : p ∉ (s.domainRetireds.filter
          (fun r => !((collect_guarded_ptrs (reclaimPrep s)).contains r.ptr))).map
            Retired.ptr := by
        intro hmem
        obtain ⟨r, hr, hrp⟩ := List.mem_map.mp hmem
        have hf := (List.mem_filter.mp hr).2
        rw [hrp] at hf
        simp only [Bool.not_eq_true'] at hf
        exact absurd (List.elem_iff.mpr hg) (by simp [List.contains] at hf ⊢; exact hf)
      rw [List.count_eq_zero.mpr hz]
      omega
    · intro r hr hrp
      show r ∈ (reclaimPass _ _).1
      rw [reclaimPass_fst]
      refine List.mem_filter.mpr ⟨hr, ?_⟩
      rw [hrp]
      exact List.elem_iff.mpr hg

/-- C2 witness: in `cs2`, address 7 is guarded by another thread's hazard
slot, so reclamation does not free it and pushes its entry back. -/
theorem no_premature_free_witness :
    (do_reclamation cs2).freed.count 7 = cs2.freed.count 7 ∧
    ∀ r ∈ cs2.domainRetireds, r.ptr = 7 → r ∈ (do_reclamation cs2).domainRetireds :=
  no_premature_free cs2 7 (by decide)

/-- C5: `EpochBarrier::check(old, new)` returns true iff the wrapping
difference `new - old` (modulo `2 ^ 64`) is at least 2 — equivalently, iff
`new` lies two or more (and fewer than `2 ^ 64`) epochs after `old`, also
across a counter wrap; in particular `check(e, e)` and `check(e, e + 1)` are
false for every epoch `e`. -/
theorem check_characterisation (old e2 : Nat) (h1 : old < W) (h2 : e2 < W) :
    (EpochBarrier.check old e2 = true ↔ ∃ k, 2 ≤ k ∧ k < W ∧ e2 = (old + k) % W) ∧
    EpochBarrier.check old old = false ∧
    EpochBarrier.check old ((old + 1) % W) = false := by
  rw [W_eq] at h1 h2
  refine ⟨⟨?_, ?_⟩, ?_, ?_⟩
  · intro hc
    simp only [EpochBarrier.check, wsub, W_eq, decide_eq_true_eq] at hc
    simp only [W_eq]
    refine ⟨(e2 + (18446744073709551616 - old % 18446744073709551616))
      % 18446744073709551616, ?_, ?_, ?_⟩ <;> omega
  · rintro ⟨k, hk2, hkW, hke⟩
    rw [W_eq] at hkW hke
    simp only [EpochBarrier.check, wsub, W_eq, decide_eq_true_eq]
    omega
  · simp only [EpochBarrier.check, wsub, W_eq, decide_eq_false_iff_not]
    omega
  · simp only [EpochBarrier.check, wsub, W_eq, decide_eq_false_iff_not]
    omega

/-- C5 witness: across the counter wrap from `2 ^ 64 - 1` to `1`, two epochs
have elapsed and `check` is true, while `check` at equal or successor epochs
is false. -/
theorem check_characterisation_witness :
    ((EpochBarrier.check (W - 1) 1 = true ↔
        ∃ k, 2 ≤ k ∧ k < W ∧ 1 = ((W - 1) + k) % W) ∧
      EpochBarrier.check (W - 1) (W - 1) = false ∧
      EpochBarrier.check (W - 1) (((W - 1) + 1) % W) = false) ∧
    EpochBarrier.check (W - 1) 1 = true := by
  have h := check_characterisation (W - 1) 1 (by rw [W_eq]; omega) (by rw [W_eq]; omega)
  exact ⟨h, h.1.mpr ⟨2, by omega, by rw [W_eq]; omega, by rw [W_eq]⟩⟩

theorem invLoop_fst (e : Nat) : ∀ (d : List (Nat × List Nat)) (s : Sys),
    (invLoop e d s).1 = d.dropWhile (fun b => EpochBarrier.check b.1 e) := by
  intro d
  induction d with
  | nil => intro s; rfl
  | cons b t ih =>
    intro s
    by_cases h : EpochBarrier.check b.1 e = true <;>
      simp [invLoop, List.dropWhile_cons, h, ih]

theorem invLoop_proj {α : Type} (f : Sys → α)
    (hf : ∀ i s, f (dropHp i s) = f s) (e : Nat) :
    ∀ (d : List (Nat × List Nat)) (s : Sys), f (invLoop e d s).2 = f s := by
  intro d
  induction d with
  | nil => intro s; rfl
  | cons b t ih =>
    intro s
    by_cases h : EpochBarrier.check b.1 e = true <;> simp [invLoop, h]
    exact (ih (dropHps b.2 s)).trans (dropHp_proj f hf b.2 s)

theorem do_invalidation_eq (s : Sys) :
    (do_invalidation s).unlinkeds = [] ∧
    (do_invalidation s).retiredLocal
      = s.retiredLocal ++ ((s.unlinkeds.map (fun u => u.nodes)).flatten).map Retired.mk ∧
    (do_invalidation s).epochedHps
      = s.epochedHps.dropWhile (fun b => EpochBarrier.check b.1 s.epoch)
        ++ [(s.epoch, (s.unlinkeds.map (fun u => u.hps)).flatten)] ∧
    (do_invalidation s).count = s.count ∧
    (do_invalidation s).epoch = s.epoch ∧
    (do_invalidation s).domainRetireds = s.domainRetireds ∧
    (do_invalidation s).freed = s.freed ∧
    (do_invalidation s).numGarbages = s.numGarbages := by
  refine ⟨?_, ?_, ?_, ?_, ?_, ?_, ?_, ?_⟩
  · show (invLoop s.epoch s.epochedHps { s with unlinkeds := [] }).2.unlinkeds = []
    rw [invLoop_proj Sys.unlinkeds (fun _ _ => rfl)]
  · show (invLoop s.epoch s.epochedHps { s with unlinkeds := [] }).2.retiredLocal ++ _ = _
    rw [invLoop_proj Sys.retiredLocal (fun _ _ => rfl)]
  · show (invLoop s.epoch s.epochedHps { s with unlinkeds := [] }).1 ++ _ = _
    rw [invLoop_fst]
    rfl
  · show (invLoop s.epoch s.epochedHps { s with unlinkeds := [] }).2.count = _
    rw [invLoop_proj Sys.count (fun _ _ => rfl)]
  · show (invLoop s.epoch s.epochedHps { s with unlinkeds := [] }).2.epoch = _
    rw [invLoop_proj Sys.epoch (fun _ _ => rfl)]
  · show (invLoop s.epoch s.epochedHps { s with unlinkeds := [] }).2.domainRetireds = _
    rw [invLoop_proj Sys.domainRetireds (fun _ _ => rfl)]
  · show (invLoop s.epoch s.epochedHps { s with unlinkeds := [] }).2.freed = _
    rw [invLoop_proj Sys.freed (fun _ _ => rfl)]
  · show (invLoop s.epoch s.epochedHps { s with unlinkeds := [] }).2.numGarbages = _
    rw [invLoop_proj Sys.numGarbages (fun _ _ => rfl)]

/-- C4 (amended): `do_invalidation` drains every pending unlinked batch,
appends the invalidated nodes' addresses to the local retired buffer, reads
the current epoch `e`, discards the maximal FRONT PREFIX of epoched-hazard
bundles whose captured epoch `e0` satisfies `check(e0, e)` — stopping at the
first front bundle that does not, so bundles behind it survive even when they
satisfy `check` — and appends the new bundle `(e, frontier-hazards)` at the
back of the deque. -/
theorem do_invalidation_matches_spec (s : Sys) :
    (do_invalidation s).unlinkeds = [] ∧
    (do_invalidation s).retiredLocal
      = s.retiredLocal ++ ((s.unlinkeds.map (fun u => u.nodes)).flatten).map Retired.mk ∧
    (do_invalidation s).epochedHps
      = s.epochedHps.dropWhile (fun b => EpochBarrier.check b.1 s.epoch)
        ++ [(s.epoch, (s.unlinkeds.map (fun u => u.hps)).flatten)] ∧
    (do_invalidation s).count = s.count ∧
    (do_invalidation s).epoch = s.epoch ∧
    (do_invalidation s).domainRetireds = s.domainRetireds ∧
    (do_invalidation s).freed = s.freed ∧
    (do_invalidation s).numGarbages = s.numGarbages :=
  do_invalidation_eq s

/-- C4 counterexample: in `cs4` (epoch 5, deque `[(4, []), (0, [])]`), the
rear bundle with captured epoch 0 satisfies `check(0, 5)` yet survives
`do_invalidation`, because the discard loop stops at the front bundle of
epoch 4 — refuting "discards every bundle ... not merely a front prefix". -/
theorem do_invalidation_front_prefix_only :
    EpochBarrier.check 0 cs4.epoch = true ∧
    ((0 : Nat), ([] : List Nat)) ∈ (do_invalidation cs4).epochedHps := by decide

/-- C6: `retire(ptr)` pushes the entry onto the thread-local retired buffer
and increments the operation counter; at multiples of 64 it moves the whole
local buffer into the domain retired list adding its length to
`num_garbages`; at multiples of 128 it additionally runs `do_reclamation`;
for other counter values the domain retired list and `num_garbages` are
unchanged (the result is exactly the push plus counter bump). -/
theorem retire_matches_spec (p : Nat) (s : Sys) :
    (wadd s.count 1 % 64 ≠ 0 →
      retire p s = { s with retiredLocal := s.retiredLocal ++ [Retired.mk p],
                            count := wadd s.count 1 }) ∧
    (wadd s.count 1 % 64 = 0 → wadd s.count 1 % 128 ≠ 0 →
      retire p s = flush_retireds
        { s with retiredLocal := s.retiredLocal ++ [Retired.mk p],
                 count := wadd s.count 1 }) ∧
    (wadd s.count 1 % 128 = 0 →
      retire p s = do_reclamation (flush_retireds
        { s with retiredLocal := s.retiredLocal ++ [Retired.mk p],
                 count := wadd s.count 1 })) ∧
    (flush_retireds { s with retiredLocal := s.retiredLocal ++ [Retired.mk p],
                             count := wadd s.count 1 }).domainRetireds
      = s.domainRetireds ++ s.retiredLocal ++ [Retired.mk p] ∧
    (flush_retireds { s with retiredLocal := s.retiredLocal ++ [Retired.mk p],
                             count := wadd s.count 1 }).numGarbages
      = wadd s.numGarbages (s.retiredLocal.length + 1) ∧
    (flush_retireds { s with retiredLocal := s.retiredLocal ++ [Retired.mk p],
                             count := wadd s.count 1 }).retiredLocal = [] := by
  refine ⟨?_, ?_, ?_, ?_, ?_, ?_⟩
  · intro h64
    have h128 : ¬wadd s.count 1 % 128 = 0 := fun hc => h64 (by omega)
    simp [retire, h64, h128]
  · intro h64 h128
    simp [retire, h64, h128]
  · intro h128
    have h64 : wadd s.count 1 % 64 = 0 := by omega
    simp [retire, h64, h128]
  · simp [flush_retireds]
  · simp [flush_retireds]
  · rfl

/-- C6 witness: retiring one pointer in the fresh demonstration state (the
incremented counter is 1, not a multiple of 64) only pushes the entry and
bumps the counter, leaving the domain retired list and `num_garbages`
unchanged. -/
theorem retire_matches_spec_witness :
    retire 5 sys0 = { sys0 with retiredLocal := sys0.retiredLocal ++ [Retired.mk 5],
                                count := wadd sys0.count 1 } :=
  (retire_matches_spec 5 sys0).1 (by decide)

theorem acquire_cons (i : Nat) (rest : List Nat) (s : Sys)
    (h : s.availableIndices = i :: rest) :
    acquire s = (i, { s with availableIndices := rest }) := by
  simp [acquire, h]

theorem protectFrontier_enough : ∀ (fr : List Nat) (s : Sys),
    fr.length ≤ s.availableIndices.length →
    (protectFrontier fr s).1 = s.availableIndices.take fr.length ∧
    (protectFrontier fr s).2.availableIndices = s.availableIndices.drop fr.length ∧
    (protectFrontier fr s).2.otherRecords = s.otherRecords ∧
    (protectFrontier fr s).2.epochedHps = s.epochedHps ∧
    (protectFrontier fr s).2.unlinkeds = s.unlinkeds ∧
    (protectFrontier fr s).2.retiredLocal = s.retiredLocal ∧
    (protectFrontier fr s).2.count = s.count ∧
    (protectFrontier fr s).2.domainRetireds = s.domainRetireds ∧
    (protectFrontier fr s).2.numGarbages = s.numGarbages ∧
    (protectFrontier fr s).2.epoch = s.epoch ∧
    (protectFrontier fr s).2.freed = s.freed := by
  intro fr
  induction fr with
  | nil => intro s _; simp [protectFrontier]
  | cons p ps ih =>
    intro s h
    obtain ⟨i, rest, hav⟩ : ∃ i rest, s.availableIndices = i :: rest := by
      cases hx : s.availableIndices with
      | nil => rw [hx] at h; simp at h
      | cons a t => exact ⟨a, t, rfl⟩
    have hacq := acquire_cons i rest s hav
    have hlen : ps.length ≤ rest.length := by
      rw [hav] at h; simpa using h
    have hih := ih (writeSlot i p { s with availableIndices := rest })
      (by simpa [writeSlot] using hlen)
    simp only [protectFrontier, hacq, writeSlot] at hih ⊢
    rw [hav]
    simp only [List.take_succ_cons, List.drop_succ_cons, List.length_cons]
    exact ⟨by rw [hih.1], hih.2⟩

/-- C7 (amended): provided the free list holds at least as many indices as
the frontier (so that protecting the frontier does not grow the hazard
array), a `try_unlink` whose `do_unlink` fails returns false and is
side-effect free on the reclamation state: the frontier hazard pointers are
dropped (indices returned to the free list, which ends up a permutation of
the original), no unlinked batch is pushed, the operation counter is not
incremented, and no invalidation, flush, or reclamation is triggered.  (When
the free list is too short, creating the frontier hazards grows the array,
whose internal `retire` increments the counter and retires the old array even
though the unlink fails — see the counterexample.) -/
theorem try_unlink_fail_no_effect (frontier : List Nat) (s : Sys)
    (h : frontier.length ≤ s.availableIndices.length) :
    (try_unlink none frontier s).1 = false ∧
    (try_unlink none frontier s).2.count = s.count ∧
    (try_unlink none frontier s).2.unlinkeds = s.unlinkeds ∧
    (try_unlink none frontier s).2.retiredLocal = s.retiredLocal ∧
    (try_unlink none frontier s).2.domainRetireds = s.domainRetireds ∧
    (try_unlink none frontier s).2.numGarbages = s.numGarbages ∧
    (try_unlink none frontier s).2.epoch = s.epoch ∧
    (try_unlink none frontier s).2.freed = s.freed ∧
    (try_unlink none frontier s).2.epochedHps = s.epochedHps ∧
    List.Perm (try_unlink none frontier s).2.availableIndices s.availableIndices := by
  have hpf := protectFrontier_enough frontier s h
  have h2 : (try_unlink none frontier s).2
      = dropHps (protectFrontier frontier s).1 (protectFrontier frontier s).2 := rfl
  refine ⟨rfl, ?_, ?_, ?_, ?_, ?_, ?_, ?_, ?_, ?_⟩
  · rw [h2, dropHp_proj Sys.count (fun _ _ => rfl)]; exact hpf.2.2.2.2.2.2.1
  · rw [h2, dropHp_proj Sys.unlinkeds (fun _ _ => rfl)]; exact hpf.2.2.2.2.1
  · rw [h2, dropHp_proj Sys.retiredLocal (fun _ _ => rfl)]; exact hpf.2.2.2.2.2.1
  · rw [h2, dropHp_proj Sys.domainRetireds (fun _ _ => rfl)]
    exact hpf.2.2.2.2.2.2.2.1
  · rw [h2, dropHp_proj Sys.numGarbages (fun _ _ => rfl)]
    exact hpf.2.2.2.2.2.2.2.2.1
  · rw [h2, dropHp_proj Sys.epoch (fun _ _ => rfl)]
    exact hpf.2.2.2.2.2.2.2.2.2.1
  · rw [h2, dropHp_proj Sys.freed (fun _ _ => rfl)]
    exact hpf.2.2.2.2.2.2.2.2.2.2
  · rw [h2, dropHp_proj Sys.epochedHps (fun _ _ => rfl)]; exact hpf.2.2.2.1
  · rw [h2, dropHps_eq]
    show List.Perm ((protectFrontier frontier s).1.reverse
        ++ (protectFrontier frontier s).2.availableIndices) s.availableIndices
    rw [hpf.1, hpf.2.1]
    exact ((List.reverse_perm _).append_right _).trans
      (by rw [List.take_append_drop])

/-- C7 witness: with a two-slot array and both indices free, a failed
`try_unlink` on a one-pointer frontier changes nothing and restores the free
list (up to permutation). -/
theorem try_unlink_fail_no_effect_witness :
    (try_unlink none [7] cs7w).1 = false ∧
    (try_unlink none [7] cs7w).2.count = cs7w.count ∧
    (try_unlink none [7] cs7w).2.unlinkeds = cs7w.unlinkeds ∧
    (try_unlink none [7] cs7w).2.retiredLocal = cs7w.retiredLocal ∧
    (try_unlink none [7] cs7w).2.domainRetireds = cs7w.domainRetireds ∧
    (try_unlink none [7] cs7w).2.numGarbages = cs7w.numGarbages ∧
    (try_unlink none [7] cs7w).2.epoch = cs7w.epoch ∧
    (try_unlink none [7] cs7w).2.freed = cs7w.freed ∧
    (try_unlink none [7] cs7w).2.epochedHps = cs7w.epochedHps ∧
    List.Perm (try_unlink none [7] cs7w).2.availableIndices cs7w.availableIndices :=
  try_unlink_fail_no_effect [7] cs7w (by decide)

/-- C7 counterexample: in `cs7w`-like state `cs7` the free list is empty, so
protecting the one-pointer frontier grows the hazard array; the growth
retires the old array through `retire`, which increments the operation
counter even though the unlink fails — refuting "the operation counter is not
incremented" for every frontier. -/
theorem try_unlink_fail_growth_counter :
    (try_unlink none [7] cs7).1 = false ∧
    (try_unlink none [7] cs7).2.count ≠ cs7.count ∧
    (try_unlink none [7] cs7).2.retiredLocal ≠ cs7.retiredLocal := by decide

theorem retire_no_collect (p : Nat) (s : Sys)
    (hc : wadd s.count 1 % 128 ≠ 0) :
    (retire p s).myRecord = s.myRecord ∧
    (retire p s).availableIndices = s.availableIndices ∧
    (retire p s).otherRecords = s.otherRecords ∧
    (retire p s).count = wadd s.count 1 ∧
    (retire p s).arrayAddr = s.arrayAddr ∧
    (retire p s).nextAddr = s.nextAddr ∧
    p ∈ ((retire p s).retiredLocal.map Retired.ptr
          ++ (retire p s).domainRetireds.map Retired.ptr) := by
  by_cases h64 : wadd s.count 1 % 64 = 0
  · have hr : retire p s = flush_retireds
        { s with retiredLocal := s.retiredLocal ++ [Retired.mk p],
                 count := wadd s.count 1 } := by
      simp [retire, h64, hc]
    rw [hr]
    refine ⟨rfl, rfl, rfl, rfl, rfl, rfl, ?_⟩
    simp [flush_retireds]
  · have hr : retire p s
        = { s with retiredLocal := s.retiredLocal ++ [Retired.mk p],
                   count := wadd s.count 1 } := by
      have h128 : ¬wadd s.count 1 % 128 = 0 := hc
      simp [retire, h64, h128]
    rw [hr]
    refine ⟨rfl, rfl, rfl, rfl, rfl, rfl, ?_⟩
    simp

/-- C8 (amended): when the free list is empty and the incremented operation
counter is not a multiple of 128 (so the internal `retire` of the old array
does not trigger a reclamation), `grow_array` publishes a new hazard array of
exactly double the old length whose first half copies each existing slot's
value at the same index and whose second half is null, retires the old array
pointer through this same thread's retire path (the entry lands in the local
retired buffer or, after a flush, in the domain retired list), and extends
the free list with exactly the indices from the old size to the new size;
every pointer protected before the growth is still present in the published
array.  (When the internal `retire` does trigger a reclamation, the
epoched-hazard bundles are dropped, which can clear slots and push extra
indices — see the counterexample.) -/
theorem grow_array_preserves (s : Sys)
    (hA : s.availableIndices = [])
    (hc : wadd s.count 1 % 128 ≠ 0) :
    (grow_array s).myRecord = s.myRecord ++ List.replicate s.myRecord.length 0 ∧
    (grow_array s).myRecord.length = 2 * s.myRecord.length ∧
    (∀ p, p ∈ s.myRecord → p ∈ (grow_array s).myRecord) ∧
    s.arrayAddr ∈ ((grow_array s).retiredLocal.map Retired.ptr
                    ++ (grow_array s).domainRetireds.map Retired.ptr) ∧
    (grow_array s).availableIndices
      = (List.range' s.myRecord.length s.myRecord.length).reverse ∧
    (grow_array s).arrayAddr = s.nextAddr := by
  have hrep : s.myRecord.length * 2 - s.myRecord.length = s.myRecord.length := by
    omega
  have hret := retire_no_collect s.arrayAddr (growPub s) hc
  have hg : grow_array s
      = { retire s.arrayAddr (growPub s) with
          availableIndices :=
            (List.range' s.myRecord.length
              (s.myRecord.length * 2 - s.myRecord.length)).reverse
            ++ (retire s.arrayAddr (growPub s)).availableIndices } := rfl
  rw [hg]
  refine ⟨?_, ?_, ?_, ?_, ?_, ?_⟩
  · show (retire _ _).myRecord = _
    rw [hret.1]
    show (growPub s).myRecord = _
    rw [growPub, hrep]
  · show (retire _ _).myRecord.length = _
    rw [hret.1]
    show (growPub s).myRecord.length = _
    rw [growPub]
    simp only [List.length_append, List.length_replicate]
    omega
  · intro p hp
    show p ∈ (retire _ _).myRecord
    rw [hret.1]
    show p ∈ (growPub s).myRecord
    rw [growPub]
    exact List.mem_append.mpr (Or.inl hp)
  · exact hret.2.2.2.2.2.2
  · show _ ++ (retire _ _).availableIndices = _
    rw [hret.2.1, hrep]
    show _ ++ s.availableIndices = _
    rw [hA]
    simp
  · exact hret.2.2.2.2.1

/-- C8 witness: growing the one-slot array `[9]` with an empty free list and
counter 0 yields the published array `[9, 0]`, the old array address retired
locally, and the free list `[1]`. -/
theorem grow_array_preserves_witness :
    (grow_array cs8w).myRecord = cs8w.myRecord ++ List.replicate cs8w.myRecord.length 0 ∧
    (grow_array cs8w).myRecord.length = 2 * cs8w.myRecord.length ∧
    (∀ p, p ∈ cs8w.myRecord → p ∈ (grow_array cs8w).myRecord) ∧
    cs8w.arrayAddr ∈ ((grow_array cs8w).retiredLocal.map Retired.ptr
                       ++ (grow_array cs8w).domainRetireds.map Retired.ptr) ∧
    (grow_array cs8w).availableIndices
      = (List.range' cs8w.myRecord.length cs8w.myRecord.length).reverse ∧
    (grow_array cs8w).arrayAddr = cs8w.nextAddr :=
  grow_array_preserves cs8w (by decide) (by decide)

/-- C8 counterexample: in `cs8` the counter is 127, so the `retire` inside
`grow_array` flushes and runs a reclamation; the reclamation drops the
epoched bundle guarding address 9, clearing its slot — so a pointer protected
before the growth is NOT present in the published array afterwards, refuting
the claim's final clause. -/
theorem grow_array_drops_protection :
    9 ∈ cs8.myRecord ∧ 9 ∉ (grow_array cs8).myRecord := by decide

theorem threadDropState_unlinkeds (s : Sys) :
    (clearEpochedHps (barrier (flush_retireds (do_invalidation s)))).unlinkeds = [] := by
  rw [clearEpochedHps_unlinkeds]
  exact (do_invalidation_eq s).1

theorem threadDropState_retiredLocal (s : Sys) :
    (clearEpochedHps (barrier (flush_retireds (do_invalidation s)))).retiredLocal = [] := by
  rw [clearEpochedHps_retiredLocal]
  rfl

theorem thread_drop_eq (s : Sys) :
    threadDrop s
      = some { clearEpochedHps (barrier (flush_retireds (do_invalidation s))) with
               availableIndices := [], recordAvailable := true } := by
  rw [threadDrop]
  exact if_pos ⟨threadDropState_unlinkeds s, threadDropState_retiredLocal s, rfl⟩

/-- C9: `Thread::drop` performs `do_invalidation`, then `flush_retireds`,
then the epoch barrier, then clears the epoched-hazard deque; at that point
the unlinked-batch list, the local retired buffer, and the epoched-hazard
deque are all empty for every thread state, so the three assertions never
fire; only then is the free list cleared and the thread record released. -/
theorem thread_drop_asserts_hold (s : Sys) :
    (clearEpochedHps (barrier (flush_retireds (do_invalidation s)))).unlinkeds = [] ∧
    (clearEpochedHps (barrier (flush_retireds (do_invalidation s)))).retiredLocal = [] ∧
    (clearEpochedHps (barrier (flush_retireds (do_invalidation s)))).epochedHps = [] ∧
    threadDrop s
      = some { clearEpochedHps (barrier (flush_retireds (do_invalidation s))) with
               availableIndices := [], recordAvailable := true } :=
  ⟨threadDropState_unlinkeds s, threadDropState_retiredLocal s, rfl, thread_drop_eq s⟩

/-- C10: the `num_garbages` counter equals the number of entries in the
domain retired list — `flush_retireds` adds exactly the number of entries it
pushes and `do_reclamation` subtracts exactly the number of popped entries it
does not push back, so (sequentially, with the counts below the `usize`
modulus) both calls preserve the equality; entries still in a thread-local
buffer are not counted. -/
theorem num_garbages_matches_retired (s : Sys)
    (h1 : s.numGarbages = s.domainRetireds.length)
    (h2 : s.numGarbages + s.retiredLocal.length < W) :
    (flush_retireds s).numGarbages = (flush_retireds s).domainRetireds.length ∧
    (do_reclamation s).numGarbages = (do_reclamation s).domainRetireds.length := by
  have hW := W_eq
  constructor
  · show wadd s.numGarbages s.retiredLocal.length
      = (s.domainRetireds ++ s.retiredLocal).length
    rw [wadd, List.length_append]
    rw [hW] at h2 ⊢
    omega
  · by_cases he : s.domainRetireds.isEmpty
    · simp only [do_reclamation, he, if_true]
      exact h1
    · simp only [do_reclamation, he, Bool.false_eq_true, if_false]
      show wsub (reclaimPrep s).numGarbages _
        = (reclaimPass (collect_guarded_ptrs (reclaimPrep s)) s.domainRetireds).1.length
      rw [reclaimPrep_numGarbages, reclaimPass_fst, wsub]
      have hle := List.length_filter_le
        (fun r => (collect_guarded_ptrs (reclaimPrep s)).contains r.ptr) s.domainRetireds
      rw [hW] at h2 ⊢
      omega

/-- C10 witness: in `cs10` (one entry, counter 1) both a flush and a
reclamation preserve the equality between `num_garbages` and the length of
the domain retired list. -/
theorem num_garbages_matches_retired_witness :
    (flush_retireds cs10).numGarbages = (flush_retireds cs10).domainRetireds.length ∧
    (do_reclamation cs10).numGarbages = (do_reclamation cs10).domainRetireds.length :=
  num_garbages_matches_retired cs10 (by decide) (by rw [W_eq]; decide)

theorem totalCount_flush (p : Nat) (s : Sys) :
    totalCount p (flush_retireds s) = totalCount p s := by
  simp only [totalCount, flush_retireds, List.map_append, List.count_append,
    List.map_nil, List.count_nil]
  omega

theorem totalCount_clear (p : Nat) (s : Sys) :
    totalCount p (clearEpochedHps s) = totalCount p s := by
  simp only [totalCount, clearEpochedHps_freed, clearEpochedHps_domainRetireds,
    clearEpochedHps_retiredLocal]

theorem totalCount_reclaim (p : Nat) (s : Sys) :
    totalCount p (do_reclamation s) = totalCount p s := by
  by_cases he : s.domainRetireds.isEmpty
  · simp [do_reclamation, he]
  · simp only [do_reclamation, he, Bool.false_eq_true, if_false]
    simp only [totalCount]
    rw [List.count_append, reclaimPrep_freed, reclaimPrep_retiredLocal]
    have hc := reclaimPass_count (collect_guarded_ptrs (reclaimPrep s)) p
      s.domainRetireds
    omega

theorem totalCount_retire (p q : Nat) (s : Sys) :
    totalCount p (retire q s) = totalCount p s + (if q = p then 1 else 0) := by
  have base : totalCount p
      { s with retiredLocal := s.retiredLocal ++ [Retired.mk q],
               count := wadd s.count 1 }
      = totalCount p s + (if q = p then 1 else 0) := by
    simp only [totalCount, List.map_append, List.count_append]
    by_cases hqp : q = p <;> simp [hqp, List.count_cons] <;> omega
  by_cases h64 : wadd s.count 1 % 64 = 0
  · by_cases h128 : wadd s.count 1 % 128 = 0
    · have hr : retire q s = do_reclamation (flush_retireds
          { s with retiredLocal := s.retiredLocal ++ [Retired.mk q],
                   count := wadd s.count 1 }) := by
        simp [retire, h64, h128]
      rw [hr, totalCount_reclaim, totalCount_flush, base]
    · have hr : retire q s = flush_retireds
          { s with retiredLocal := s.retiredLocal ++ [Retired.mk q],
                   count := wadd s.count 1 } := by
        simp [retire, h64, h128]
      rw [hr, totalCount_flush, base]
  · have h128 : ¬wadd s.count 1 % 128 = 0 := fun hc => h64 (by omega)
    have hr : retire q s
        = { s with retiredLocal := s.retiredLocal ++ [Retired.mk q],
                   count := wadd s.count 1 } := by
      simp [retire, h64, h128]
    rw [hr, base]

theorem do_reclamation_unlinkeds (s : Sys) :
    (do_reclamation s).unlinkeds = s.unlinkeds := by
  by_cases he : s.domainRetireds.isEmpty
  · simp [do_reclamation, he]
  · simp only [do_reclamation, he, Bool.false_eq_true, if_false]
    exact reclaimPrep_unlinkeds s

theorem retire_unlinkeds (q : Nat) (s : Sys) :
    (retire q s).unlinkeds = s.unlinkeds := by
  by_cases h64 : wadd s.count 1 % 64 = 0
  · by_cases h128 : wadd s.count 1 % 128 = 0
    · have hr : retire q s = do_reclamation (flush_retireds
          { s with retiredLocal := s.retiredLocal ++ [Retired.mk q],
                   count := wadd s.count 1 }) := by
        simp [retire, h64, h128]
      rw [hr, do_reclamation_unlinkeds]
      rfl
    · have hr : retire q s = flush_retireds
          { s with retiredLocal := s.retiredLocal ++ [Retired.mk q],
                   count := wadd s.count 1 } := by
        simp [retire, h64, h128]
      rw [hr]
      rfl
  · have h128 : ¬wadd s.count 1 % 128 = 0 := fun hc => h64 (by omega)
    have hr : retire q s
        = { s with retiredLocal := s.retiredLocal ++ [Retired.mk q],
                   count := wadd s.count 1 } := by
      simp [retire, h64, h128]
    rw [hr]

theorem run_unlinkeds (es : List Event) :
    ∀ s : Sys, (run es s).unlinkeds = s.unlinkeds := by
  induction es with
  | nil => intro s; rfl
  | cons e t ih =>
    intro s
    show (run t (stepE s e)).unlinkeds = _
    rw [ih]
    cases e with
    | retireE q => exact retire_unlinkeds q s
    | reclaimE => exact do_reclamation_unlinkeds s
    | setRecords recs => rfl

theorem run_totalCount (p : Nat) (es : List Event) :
    ∀ s : Sys, totalCount p (run es s)
      = totalCount p s + (retiredInputs es).count p := by
  induction es with
  | nil => intro s; simp [run, retiredInputs]
  | cons e t ih =>
    intro s
    show totalCount p (run t (stepE s e)) = _
    rw [ih]
    cases e with
    | retireE q =>
      show totalCount p (retire q s) + _ = _
      rw [totalCount_retire]
      simp only [retiredInputs, List.filterMap_cons]
      by_cases hqp : q = p <;> simp [hqp, List.count_cons] <;> omega
    | reclaimE =>
      show totalCount p (do_reclamation s) + _ = _
      rw [totalCount_reclaim]
      simp [retiredInputs]
    | setRecords recs =>
      show totalCount p { s with otherRecords := recs } + _ = _
      simp only [retiredInputs, List.filterMap_cons]
      rfl

theorem totalCount_inv_nil (p : Nat) (s : Sys) (h : s.unlinkeds = []) :
    totalCount p (do_invalidation s) = totalCount p s := by
  have he := do_invalidation_eq s
  simp only [totalCount, he.2.1, he.2.2.2.2.2.1, he.2.2.2.2.2.2.1, h]
  simp

/-- C1: exactly-once freeing — for any sequence of retire calls with pairwise
distinct pointers (interleaved with reclamation runs and arbitrary changes of
the other threads' hazard slots), the deleter of each retired pointer is
invoked exactly once, no later than domain drop: each entry is either freed
by some `do_reclamation` run or stays in the domain retired list until
`Domain::drop` drains it. -/
theorem exactly_once_freeing (es : List Event) (recs : List (List Nat)) (p : Nat)
    (hnd : (retiredInputs es).Nodup) (hp : p ∈ retiredInputs es) :
    (finalFreed es recs).count p = 1 := by
  have hUn : (run es (initSys recs)).unlinkeds = [] := by
    rw [run_unlinkeds]
    rfl
  have hTD := thread_drop_eq (run es (initSys recs))
  have h4 : (clearEpochedHps (barrier (flush_retireds
      (do_invalidation (run es (initSys recs)))))).retiredLocal = [] :=
    threadDropState_retiredLocal (run es (initSys recs))
  simp only [finalFreed]
  rw [hTD]
  simp only [domainDrop, if_pos]
  rw [List.count_append]
  have hA : (clearEpochedHps (barrier (flush_retireds
        (do_invalidation (run es (initSys recs)))))).freed.count p
      + ((clearEpochedHps (barrier (flush_retireds
          (do_invalidation (run es (initSys recs)))))).domainRetireds.map
            Retired.ptr).count p
      = totalCount p (clearEpochedHps (barrier (flush_retireds
          (do_invalidation (run es (initSys recs)))))) := by
    simp [totalCount, h4]
  have hB : totalCount p (clearEpochedHps (barrier (flush_retireds
        (do_invalidation (run es (initSys recs))))))
      = totalCount p (run es (initSys recs)) := by
    rw [totalCount_clear]
    show totalCount p (flush_retireds (do_invalidation (run es (initSys recs)))) = _
    rw [totalCount_flush, totalCount_inv_nil p _ hUn]
  have hC := run_totalCount p es (initSys recs)
  have hD : totalCount p (initSys recs) = 0 := rfl
  have hE : (retiredInputs es).count p = 1 := List.count_eq_one_of_mem hnd hp
  omega

/-- C1 witness: a single retire of pointer 5 followed by thread and domain
drop frees 5 exactly once. -/
theorem exactly_once_freeing_witness :
    (finalFreed [Event.retireE 5] []).count 5 = 1 :=
  exactly_once_freeing [Event.retireE 5] [] 5 (by decide) (by decide)
